import Mathlib

/-!
Verification of the sabreur demultiplexing engine (src/utils.rs, src/demux.rs)
against its natural-language specification.

Shallow embedding conventions:
- bytes are modelled as `Nat` (only equality between bytes is ever used);
- a barcode key or a read sequence is a `List Nat`;
- the `Barcode` hash map is modelled by the list of its keys in iteration
  order (`my_vec` in the source); output sinks are identified by the pair
  (table key, side index into the `Vec<File>` of that entry), so a demux
  pass is modelled as the list of write events it performs;
- the record iterator of the `bio` crate is a `List (Except String FaRecord)`:
  `records.next()` yields `Some(Ok _)`, `Some(Err _)` or `None`;
- a Rust panic (out-of-bounds slice or index, `unwrap` on `None`) is
  modelled by the embedding returning `none`.
-/

namespace Sabreur

/-- Compression formats of the niffler crate (`niffler::compression::Format`). -/
inductive Format where
  | No
  | Gzip
  | Bzip
  | Lzma
  | Zstd
deriving DecidableEq

/-- A fasta record of the bio crate: identifier, optional description and
byte sequence. Only `seq` is inspected by the engine. -/
structure FaRecord where
  id : String
  desc : Option String
  seq : List Nat
deriving DecidableEq

/-- The per-barcode count map `nb_records : HashMap<&[u8], i32>`,
modelled as an association list from key bytes to an integer count. -/
abbrev Stats : Type := List (List Nat × Int)

/-- The reserved sentinel key `"XXX".as_bytes()` = [88, 88, 88]. -/
def sentinel : List Nat := [88, 88, 88]

/-- An opened input stream: the compression format detected by `read_file`
together with the sequence of record-parse results the reader yields. -/
structure DemuxInput where
  detected : Format
  records : List (Except String FaRecord)

/-- One call to `write_fa`: the record serialized to the sink
`barcode_data.get(key).unwrap()[side]` with the given compression format
and level. -/
structure WriteEvent where
  key : List Nat
  side : Nat
  record : FaRecord
  compression : Format
  level : Nat
deriving DecidableEq

/-- Embeds `bc_cmp` from src/utils.rs: sum over the zip of the two byte
slices of `(a != b) as i32`, compared against `mismatch`. -/
def bc_cmp (bc : List Nat) (seq : List Nat) (mismatch : Int) : Bool :=
  let nb_mismatch : Int :=
    ((bc.zip seq).map (fun p => if p.1 ≠ p.2 then (1 : Int) else 0)).sum
  nb_mismatch ≤ mismatch

/-- Hamming distance as the spec words it (number of positions at which the
two byte strings differ), walking both lists in lockstep. -/
def hammingDist : List Nat → List Nat → Nat
  | a :: as, b :: bs => (if a = b then 0 else 1) + hammingDist as bs
  | _, _ => 0

/-- The `entry(i).and_modify(|e| *e += 1).or_insert(1)` update of the
count map. -/
def updateCount : Stats → List Nat → Stats
  | [], k => [(k, 1)]
  | (k0, v) :: rest, k =>
    if k0 = k then (k0, v + 1) :: rest else (k0, v) :: updateCount rest k

/-- The per-record scan `my_vec.iter().find(|&&x| bc_cmp(x, &seq[..bc_len],
mismatch))`: the first table key (in iteration order) within `mismatch`
of the record's prefix. -/
def matchedKey? (keys : List (List Nat)) (bcLen : Nat) (mismatch : Int)
    (seq : List Nat) : Option (List Nat) :=
  keys.find? (fun x => bc_cmp x (seq.take bcLen) mismatch)

/-- The sink key a record is routed to: its matched key, or the sentinel
when no key matches. -/
def routeKey (keys : List (List Nat)) (bcLen : Nat) (mismatch : Int)
    (seq : List Nat) : List Nat :=
  match matchedKey? keys bcLen mismatch seq with
  | some k => k
  | none => sentinel

/-- Result of one demultiplexing pass: the final count map, the
`is_unk_empty` flag, and the trace of writes performed. -/
structure LoopResult where
  stats : Stats
  is_unk_empty : Bool
  writes : List WriteEvent
deriving DecidableEq

/-- The `while let Some(Ok(record)) = records.next()` loop shared by the
demultiplexers of src/utils.rs and src/demux.rs. A `Some(Err _)` item
fails the pattern, so the loop stops there and the accumulated state is
returned as a success. Slicing `&record.seq()[..bc_len]` panics (modelled
as `none`) when the sequence is shorter than `bc_len`; the unmatched
branch panics when the sentinel key is absent
(`barcode_data.get(&"XXX".as_bytes()).unwrap()`). -/
def demuxLoop (keys : List (List Nat)) (bcLen : Nat) (compression : Format)
    (level : Nat) (mismatch : Int) (side : Nat) :
    List (Except String FaRecord) → Stats → Bool → Option LoopResult
  | [], stats, unk => some ⟨stats, unk, []⟩
  | Except.error _ :: _, stats, unk => some ⟨stats, unk, []⟩
  | Except.ok record :: rest, stats, unk =>
    if bcLen ≤ record.seq.length then
      match matchedKey? keys bcLen mismatch record.seq with
      | some i =>
        match demuxLoop keys bcLen compression level mismatch side rest
            (updateCount stats i) unk with
        | some r =>
          some ⟨r.stats, r.is_unk_empty,
            ⟨i, side, record, compression, level⟩ :: r.writes⟩
        | none => none
      | none =>
        if sentinel ∈ keys then
          match demuxLoop keys bcLen compression level mismatch side rest
              stats false with
          | some r =>
            some ⟨r.stats, r.is_unk_empty,
              ⟨sentinel, side, record, compression, level⟩ :: r.writes⟩
          | none => none
        else none
    else none

/-- Embeds `se_fa_demux` from src/utils.rs / src/demux.rs. `my_vec[0]`
panics on an empty key list (`none`); the output compression is the
`--format` override unless it is `Format.No`, in which case the input's
detected format is kept. -/
def se_fa_demux (file : DemuxInput) (format : Format) (level : Nat)
    (barcode_keys : List (List Nat)) (mismatch : Int) (nb_records : Stats) :
    Option LoopResult :=
  let compression := if format ≠ Format.No then format else file.detected
  match barcode_keys with
  | [] => none
  | k0 :: _ =>
    demuxLoop barcode_keys k0.length compression level mismatch 0
      file.records nb_records true

/-- Result of `pe_fa_demux`: the count map, the `format!("{}{}",
unk1_empty, unk2_empty)` string, and the concatenated forward-pass and
reverse-pass write traces. -/
structure PeResult where
  stats : Stats
  final_str : String
  writes : List WriteEvent
deriving DecidableEq

/-- Prints the `"true"` / `"false"` strings the paired-end demultiplexers
keep their unknown-file flags in. -/
def boolStr (b : Bool) : String := if b then "true" else "false"

/-- Embeds `pe_fa_demux` from src/utils.rs / src/demux.rs: the compression
is taken from the forward file (`let (forward_reader, mut compression) =
read_file(forward)?`), the reverse file's detected format is bound to
`_compression` and discarded; the forward pass writes side 0, then the
reverse pass writes side 1, both with the same `compression`. -/
def pe_fa_demux (forward : DemuxInput) (reverse : DemuxInput)
    (format : Format) (level : Nat) (barcode_keys : List (List Nat))
    (mismatch : Int) (nb_records : Stats) : Option PeResult :=
  let compression := if format ≠ Format.No then format else forward.detected
  match barcode_keys with
  | [] => none
  | k0 :: _ =>
    match demuxLoop barcode_keys k0.length compression level mismatch 0
        forward.records nb_records true with
    | none => none
    | some f =>
      match demuxLoop barcode_keys k0.length compression level mismatch 1
          reverse.records f.stats true with
      | none => none
      | some r =>
        some ⟨r.stats, boolStr f.is_unk_empty ++ boolStr r.is_unk_empty,
          f.writes ++ r.writes⟩

/-- Concrete record "AC" used by witnesses (matches barcode [65]). -/
def wRec : FaRecord := ⟨"w", none, [65, 67]⟩

/-- Concrete record "CC" that matches no key of the table
{[65], sentinel} at mismatch 0. -/
def uRec : FaRecord := ⟨"u", none, [67, 67]⟩

/-- Concrete record whose sequence starts with the sentinel bytes
"XXX" and continues "AAA". -/
def xRec : FaRecord := ⟨"x", none, [88, 88, 88, 65, 65, 65]⟩

/-- The barcode "ACCGTA" as bytes. -/
def keyACCGTA : List Nat := [65, 67, 67, 71, 84, 65]

/-- Concrete record whose sequence "ACCXXXGGG" agrees with "ACCGTA" on
its first three bytes only. -/
def accRec : FaRecord := ⟨"a", none, [65, 67, 67, 88, 88, 88, 71, 71, 71]⟩

/-- Concrete records "AAAC" and "AAAG", both matching barcode
[65, 65, 65] exactly. -/
def aRec1 : FaRecord := ⟨"r1", none, [65, 65, 65, 67]⟩

/-- Second record of the C3 stream, parsed after the malformed one. -/
def aRec2 : FaRecord := ⟨"r2", none, [65, 65, 65, 71]⟩

/-- Concrete forward-pass record "AA" for the paired-end run. -/
def fRec : FaRecord := ⟨"f", none, [65, 65]⟩

/-- Concrete reverse-pass record "AC" for the paired-end run. -/
def rRec : FaRecord := ⟨"r", none, [65, 67]⟩

/-- Concrete record "CCCC", at Hamming distance 3 from both
[65, 65, 65] and [71, 71, 71] on its 3-byte prefix. -/
def cccRec : FaRecord := ⟨"c", none, [67, 67, 67, 67]⟩

/-- The integer mismatch sum computed inside `bc_cmp` is the Hamming
distance of the compared (zip-truncated) byte strings. -/
lemma nbMismatch_eq_hammingDist (b : List Nat) (s : List Nat) :
    ((b.zip s).map (fun p => if p.1 = p.2 then (0 : Int) else 1)).sum =
      (hammingDist b s : Int) := by
  induction b generalizing s with
  | nil => simp [hammingDist]
  | cons a as ih =>
    cases s with
    | nil => simp [hammingDist]
    | cons c cs =>
      by_cases h : a = c
      · simp [hammingDist, h, ih]
      · simp [hammingDist, h, ih]


/-- Zipping two lists only ever pairs the first `min` positions, so both
sides may be truncated to the other's length without changing the zip. -/
lemma zip_take_take (b : List Nat) (s : List Nat) :
    b.zip s = (b.take s.length).zip (s.take b.length) := by
  induction b generalizing s with
  | nil => simp
  | cons a as ih =>
    cases s with
    | nil => simp
    | cons c cs => simpa using ih cs

/-- C1: for every candidate barcode and read prefix of equal length and
every integer mismatch bound, `bc_cmp` returns `true` exactly when the
Hamming distance (number of differing byte positions) is at most the
bound; the comparison is a pure positional substitution count. -/
theorem bc_cmp_iff_hammingDist (b : List Nat) (p : List Nat) (m : Int)
    (h : b.length = p.length) :
    bc_cmp b p m = true ↔ (hammingDist b p : Int) ≤ m := by
  simp [bc_cmp, nbMismatch_eq_hammingDist]

/-- Witness for C1 at barcode [65, 66], prefix [65, 67], bound 1. -/
theorem bc_cmp_iff_hammingDist_witness :
    ([65, 66] : List Nat).length = ([65, 67] : List Nat).length ∧
      (bc_cmp [65, 66] [65, 67] 1 = true ↔
        (hammingDist [65, 66] [65, 67] : Int) ≤ 1) :=
  ⟨rfl, bc_cmp_iff_hammingDist [65, 66] [65, 67] 1 rfl⟩

/-- C10: `bc_cmp` is total on inputs of unequal length: it compares only
the first `min (len bc) (len seq)` positions (zip truncation), so its
verdict is unchanged by truncating each input to the other's length, and
positions of the barcode beyond a shorter sequence are never counted as
mismatches (`hammingDist` here walks the two lists in lockstep and stops
at the shorter one). -/
theorem bc_cmp_total_truncation (b : List Nat) (s : List Nat) (m : Int) :
    (bc_cmp b s m = true ↔ (hammingDist b s : Int) ≤ m) ∧
      bc_cmp b s m = bc_cmp (b.take s.length) (s.take b.length) m := by
  constructor
  · simp [bc_cmp, nbMismatch_eq_hammingDist]
  · simp only [bc_cmp]
    rw [← zip_take_take]

/-- How one record updates the count map: the matched key's entry is
incremented (or created at 1); an unmatched record leaves the map alone. -/
def matchStep (keys : List (List Nat)) (bcLen : Nat) (m : Int)
    (s : Stats) (r : FaRecord) : Stats :=
  match matchedKey? keys bcLen m r.seq with
  | some k => updateCount s k
  | none => s

/-- Full characterisation of `demuxLoop` on a stream of well-parsed,
long-enough records over a table containing the sentinel: it succeeds, the
count map is folded by `matchStep`, the emptiness flag stays up exactly
while every record matches, and exactly one write per record is emitted,
in arrival order, to `routeKey` of its sequence. -/
lemma demuxLoop_ok_spec (keys : List (List Nat)) (bcLen : Nat)
    (comp : Format) (lvl : Nat) (m : Int) (side : Nat)
    (hsent : sentinel ∈ keys) :
    ∀ (recs : List FaRecord) (stats : Stats) (unk : Bool),
      (∀ r ∈ recs, bcLen ≤ r.seq.length) →
      demuxLoop keys bcLen comp lvl m side (recs.map Except.ok) stats unk =
        some ⟨recs.foldl (matchStep keys bcLen m) stats,
              unk && recs.all
                (fun r => (matchedKey? keys bcLen m r.seq).isSome),
              recs.map (fun r =>
                ⟨routeKey keys bcLen m r.seq, side, r, comp, lvl⟩)⟩ := by
  intro recs
  induction recs with
  | nil => intro stats unk _; simp [demuxLoop]
  | cons r rs ih =>
    intro stats unk hlen
    have hr : bcLen ≤ r.seq.length := hlen r (List.mem_cons_self _ _)
    have hrs : ∀ x ∈ rs, bcLen ≤ x.seq.length :=
      fun x hx => hlen x (List.mem_cons_of_mem _ hx)
    simp only [List.map_cons, demuxLoop, if_pos hr]
    cases hk : matchedKey? keys bcLen m r.seq with
    | some k =>
      dsimp only
      rw [ih (updateCount stats k) unk hrs]
      simp [matchStep, routeKey, hk, Bool.and_assoc]
    | none =>
      dsimp only
      rw [if_pos hsent, ih stats false hrs]
      simp [matchStep, routeKey, hk]

/-- Full characterisation of `se_fa_demux` under the same premises: the
initial emptiness flag is `true`, so the returned flag is exactly `recs.all
matched`. -/
lemma se_fa_demux_ok_spec (det : Format) (fmt : Format) (lvl : Nat)
    (k0 : List Nat) (rest : List (List Nat)) (m : Int) (nb0 : Stats)
    (recs : List FaRecord)
    (hsent : sentinel ∈ k0 :: rest)
    (hlen : ∀ r ∈ recs, k0.length ≤ r.seq.length) :
    se_fa_demux ⟨det, recs.map Except.ok⟩ fmt lvl (k0 :: rest) m nb0 =
      some ⟨recs.foldl (matchStep (k0 :: rest) k0.length m) nb0,
            recs.all
              (fun r => (matchedKey? (k0 :: rest) k0.length m r.seq).isSome),
            recs.map (fun r =>
              ⟨routeKey (k0 :: rest) k0.length m r.seq, 0, r,
                if fmt ≠ Format.No then fmt else det, lvl⟩)⟩ := by
  rw [se_fa_demux]
  rw [demuxLoop_ok_spec (k0 :: rest) k0.length _ lvl m 0 hsent recs nb0 true hlen]
  simp

/-- Sum of all counts recorded in the count map. -/
def sumCounts (s : Stats) : Int := (s.map Prod.snd).sum

/-- An `updateCount` raises the total of the map by exactly one. -/
lemma sumCounts_updateCount (s : Stats) (k : List Nat) :
    sumCounts (updateCount s k) = sumCounts s + 1 := by
  induction s with
  | nil => simp [updateCount, sumCounts]
  | cons p rest ih =>
    obtain ⟨k0, v⟩ := p
    by_cases h : k0 = k
    · simp [updateCount, h, sumCounts]
      ring
    · simp only [updateCount, if_neg h, sumCounts, List.map_cons,
        List.sum_cons] at *
      rw [ih]
      ring

/-- Folding `matchStep` over a record list raises the total of the count
map by the number of records whose prefix matched some table key. -/
lemma sumCounts_foldl_matchStep (keys : List (List Nat)) (bcLen : Nat)
    (m : Int) (recs : List FaRecord) :
    ∀ s0 : Stats,
      sumCounts (recs.foldl (matchStep keys bcLen m) s0) =
        sumCounts s0 +
          (recs.countP
            (fun r => (matchedKey? keys bcLen m r.seq).isSome) : Int) := by
  induction recs with
  | nil => intro s0; simp
  | cons r rs ih =>
    intro s0
    cases hk : matchedKey? keys bcLen m r.seq with
    | none =>
      simp only [List.foldl_cons, List.countP_cons, matchStep, hk]
      rw [ih s0]
      simp [hk]
    | some k =>
      simp only [List.foldl_cons, List.countP_cons, matchStep, hk]
      rw [ih (updateCount s0 k), sumCounts_updateCount]
      simp [hk]
      ring

/-- C2: over a well-formed input stream (every record parses and every
sequence is at least barcode-length long) with a sentinel-carrying table,
the single-end demultiplexer performs exactly one write per input record,
in arrival order, and that write goes to the matched barcode's sink, or
to the sentinel's sink when no key matches: no record is dropped,
duplicated, or sent to two sinks. -/
theorem se_demux_each_record_once (det : Format) (fmt : Format) (lvl : Nat)
    (k0 : List Nat) (rest : List (List Nat)) (m : Int) (nb0 : Stats)
    (recs : List FaRecord) (res : LoopResult)
    (hsent : sentinel ∈ k0 :: rest)
    (hlen : ∀ r ∈ recs, k0.length ≤ r.seq.length)
    (h : se_fa_demux ⟨det, recs.map Except.ok⟩ fmt lvl (k0 :: rest) m nb0 =
      some res) :
    res.writes.map (fun w => (w.record, w.key)) =
      recs.map (fun r => (r, routeKey (k0 :: rest) k0.length m r.seq)) := by
  rw [se_fa_demux_ok_spec det fmt lvl k0 rest m nb0 recs hsent hlen] at h
  cases h
  simp [List.map_map]

/-- Witness for C2: one record matching barcode [65] in the table
{[65], sentinel}. -/
theorem se_demux_each_record_once_witness :
    sentinel ∈ [[65], sentinel] ∧
      (∀ r ∈ [wRec], ([65] : List Nat).length ≤ r.seq.length) ∧
      se_fa_demux ⟨Format.No, [wRec].map Except.ok⟩ Format.No 1
          [[65], sentinel] 0 [] =
        some ⟨[([65], 1)], true, [⟨[65], 0, wRec, Format.No, 1⟩]⟩ ∧
      ([⟨[65], 0, wRec, Format.No, 1⟩] : List WriteEvent).map
          (fun w => (w.record, w.key)) =
        [wRec].map
          (fun r => (r, routeKey [[65], sentinel] ([65] : List Nat).length 0 r.seq)) :=
  ⟨by decide, by decide, by decide,
    se_demux_each_record_once Format.No Format.No 1 [65] [sentinel] 0 []
      [wRec] ⟨[([65], 1)], true, [⟨[65], 0, wRec, Format.No, 1⟩]⟩
      (by decide) (by decide) (by decide)⟩

/-- C8: starting from an empty count map, the final counts sum to the
number of matched records, so adding the number of records routed to the
unknown sink through the no-key-matched branch gives exactly the number
of records consumed; each matched record increments exactly the matched
key's count by one and unmatched records increment none. -/
theorem se_demux_counts_partition (det : Format) (fmt : Format) (lvl : Nat)
    (k0 : List Nat) (rest : List (List Nat)) (m : Int)
    (recs : List FaRecord) (res : LoopResult)
    (hsent : sentinel ∈ k0 :: rest)
    (hlen : ∀ r ∈ recs, k0.length ≤ r.seq.length)
    (h : se_fa_demux ⟨det, recs.map Except.ok⟩ fmt lvl (k0 :: rest) m [] =
      some res) :
    sumCounts res.stats +
      (recs.countP
        (fun r => (matchedKey? (k0 :: rest) k0.length m r.seq).isNone) : Int) =
      (recs.length : Int) := by
  rw [se_fa_demux_ok_spec det fmt lvl k0 rest m [] recs hsent hlen] at h
  cases h
  rw [sumCounts_foldl_matchStep]
  have hsplit := List.length_eq_countP_add_countP
    (fun r => (matchedKey? (k0 :: rest) k0.length m r.seq).isSome) (l := recs)
  have hnone : recs.countP
      (fun r => (matchedKey? (k0 :: rest) k0.length m r.seq).isNone) =
      recs.countP
        (fun r => !(matchedKey? (k0 :: rest) k0.length m r.seq).isSome) := by
    apply List.countP_congr
    intro r _
    cases matchedKey? (k0 :: rest) k0.length m r.seq <;> simp
  rw [hnone]
  simp only [sumCounts, List.map_nil, List.sum_nil, zero_add]
  rw [hsplit]
  push_cast
  have : recs.countP (fun r => decide ¬((matchedKey? (k0 :: rest) k0.length m r.seq).isSome = true)) =
      recs.countP (fun r => !(matchedKey? (k0 :: rest) k0.length m r.seq).isSome) := by
    apply List.countP_congr
    intro r _
    cases matchedKey? (k0 :: rest) k0.length m r.seq <;> simp
  rw [this]

/-- Witness for C8: one matched record; 1 + 0 = 1. -/
theorem se_demux_counts_partition_witness :
    sentinel ∈ [[65], sentinel] ∧
      (∀ r ∈ [wRec], ([65] : List Nat).length ≤ r.seq.length) ∧
      se_fa_demux ⟨Format.No, [wRec].map Except.ok⟩ Format.No 1
          [[65], sentinel] 0 [] =
        some ⟨[([65], 1)], true, [⟨[65], 0, wRec, Format.No, 1⟩]⟩ ∧
      sumCounts [([65], 1)] +
          (([wRec].countP
            (fun r => (matchedKey? [[65], sentinel] ([65] : List Nat).length 0 r.seq).isNone)) : Int) =
        (([wRec] : List FaRecord).length : Int) :=
  ⟨by decide, by decide, by decide,
    se_demux_counts_partition Format.No Format.No 1 [65] [sentinel] 0
      [wRec] ⟨[([65], 1)], true, [⟨[65], 0, wRec, Format.No, 1⟩]⟩
      (by decide) (by decide) (by decide)⟩

/-- C4 counterexample: on a table {[65], sentinel} at mismatch 0, the
record "CC" matches no barcode, so it is written to the sentinel's sink —
yet the returned boolean is `false`, not `true` as the
unknown-sink-was-used reading demands: the source returns `is_unk_empty`,
the negation of that flag (main.rs deletes the unknown file when the
returned boolean is `true`). -/
theorem se_demux_unk_flag_counterexample :
    se_fa_demux ⟨Format.No, [Except.ok uRec]⟩ Format.No 1
        [[65], sentinel] 0 [] =
      some ⟨[], false, [⟨sentinel, 0, uRec, Format.No, 1⟩]⟩ := by
  decide

/-- C4 as amended: the boolean returned by the single-end demultiplexer
is the unknown-sink-is-EMPTY flag: it is `true` exactly when every input
record matched some table key, and `false` as soon as one record was
routed to the sentinel's sink through the no-key-matched branch. -/
theorem se_demux_flag_is_unk_empty (det : Format) (fmt : Format)
    (lvl : Nat) (k0 : List Nat) (rest : List (List Nat)) (m : Int)
    (nb0 : Stats) (recs : List FaRecord) (res : LoopResult)
    (hsent : sentinel ∈ k0 :: rest)
    (hlen : ∀ r ∈ recs, k0.length ≤ r.seq.length)
    (h : se_fa_demux ⟨det, recs.map Except.ok⟩ fmt lvl (k0 :: rest) m nb0 =
      some res) :
    res.is_unk_empty =
      recs.all
        (fun r => (matchedKey? (k0 :: rest) k0.length m r.seq).isSome) := by
  rw [se_fa_demux_ok_spec det fmt lvl k0 rest m nb0 recs hsent hlen] at h
  cases h
  rfl

/-- Witness for amended C4: one unmatched record makes the flag `false`. -/
theorem se_demux_flag_is_unk_empty_witness :
    sentinel ∈ [[65], sentinel] ∧
      (∀ r ∈ [uRec], ([65] : List Nat).length ≤ r.seq.length) ∧
      se_fa_demux ⟨Format.No, [uRec].map Except.ok⟩ Format.No 1
          [[65], sentinel] 0 [] =
        some ⟨[], false, [⟨sentinel, 0, uRec, Format.No, 1⟩]⟩ ∧
      (⟨[], false, [⟨sentinel, 0, uRec, Format.No, 1⟩]⟩ : LoopResult).is_unk_empty =
        [uRec].all
          (fun r => (matchedKey? [[65], sentinel] ([65] : List Nat).length 0 r.seq).isSome) :=
  ⟨by decide, by decide, by decide,
    se_demux_flag_is_unk_empty Format.No Format.No 1 [65] [sentinel] 0 []
      [uRec] ⟨[], false, [⟨sentinel, 0, uRec, Format.No, 1⟩]⟩
      (by decide) (by decide) (by decide)⟩

/-- C5 counterexample: when the sentinel iterates first (table
{sentinel, [65, 65, 65]}), a record starting with the bytes "XXX" is
matched BY the sentinel at mismatch 0: the sentinel is selected as the
matched barcode, a count is recorded for it in the statistics, and its
sink receives the record through the matched branch (the emptiness flag
even stays `true`). -/
theorem se_demux_sentinel_counterexample :
    se_fa_demux ⟨Format.No, [Except.ok xRec]⟩ Format.No 1
        [sentinel, [65, 65, 65]] 0 [] =
      some ⟨[(sentinel, 1)], true, [⟨sentinel, 0, xRec, Format.No, 1⟩]⟩ := by
  decide

/-- C5 as amended: the per-record scan tests ALL keys of the table in
iteration order, the sentinel included; whenever the sentinel is reached
first and its comparison passes the threshold it is selected as the
matched barcode, its count is incremented in the statistics, and its sink
receives the record through the matched branch, leaving the
unknown-sink-empty flag untouched. -/
theorem se_demux_sentinel_selectable (det : Format) (fmt : Format)
    (lvl : Nat) (rest : List (List Nat)) (m : Int) (nb0 : Stats)
    (rec : FaRecord)
    (hm : bc_cmp sentinel (rec.seq.take sentinel.length) m = true)
    (hlen : sentinel.length ≤ rec.seq.length) :
    se_fa_demux ⟨det, [Except.ok rec]⟩ fmt lvl (sentinel :: rest) m nb0 =
      some ⟨updateCount nb0 sentinel, true,
        [⟨sentinel, 0, rec, if fmt ≠ Format.No then fmt else det, lvl⟩]⟩ := by
  have hfind : matchedKey? (sentinel :: rest) sentinel.length m rec.seq =
      some sentinel := by
    unfold matchedKey?
    exact List.find?_cons_of_pos _ hm
  have hrw : ([Except.ok rec] : List (Except String FaRecord)) =
      [rec].map Except.ok := rfl
  rw [hrw, se_fa_demux_ok_spec det fmt lvl sentinel rest m nb0 [rec]
    (List.mem_cons_self _ _)
    (by intro r hr; rw [List.mem_singleton] at hr; subst hr; exact hlen)]
  simp [matchStep, routeKey, hfind]

/-- Witness for amended C5: the record "XXXAAA" against table
{sentinel, [65, 65, 65]} at mismatch 0. -/
theorem se_demux_sentinel_selectable_witness :
    bc_cmp sentinel (xRec.seq.take sentinel.length) 0 = true ∧
      sentinel.length ≤ xRec.seq.length ∧
      se_fa_demux ⟨Format.No, [Except.ok xRec]⟩ Format.No 1
          (sentinel :: [[65, 65, 65]]) 0 [] =
        some ⟨updateCount [] sentinel, true,
          [⟨sentinel, 0, xRec,
            if (Format.No : Format) ≠ Format.No then Format.No else Format.No,
            1⟩]⟩ :=
  ⟨by decide, by decide,
    se_demux_sentinel_selectable Format.No Format.No 1 [[65, 65, 65]] 0 []
      xRec (by decide) (by decide)⟩

/-- C6 counterexample: `bc_len` is taken from the FIRST key in iteration
order, not from a real entry. With the table iterated as
{sentinel, "ACCGTA"} the prefix length is 3 (the sentinel's length), so
the record "ACCXXXGGG" is compared on "ACC" alone and matched to
"ACCGTA"; iterating the same table as {"ACCGTA", sentinel} gives prefix
length 6 and routes the very same record to the unknown sink. If
`barcode_length` were determined from a real entry it would be 6 in both
runs. -/
theorem se_demux_bc_len_counterexample :
    se_fa_demux ⟨Format.No, [Except.ok accRec]⟩ Format.No 1
        [sentinel, keyACCGTA] 0 [] =
      some ⟨[(keyACCGTA, 1)], true, [⟨keyACCGTA, 0, accRec, Format.No, 1⟩]⟩ ∧
    se_fa_demux ⟨Format.No, [Except.ok accRec]⟩ Format.No 1
        [keyACCGTA, sentinel] 0 [] =
      some ⟨[], false, [⟨sentinel, 0, accRec, Format.No, 1⟩]⟩ := by
  constructor
  · decide
  · decide

/-- C6 as amended: `barcode_length` is the length of whichever key the
table iterates first — possibly the sentinel; it equals the common length
of the real barcode keys exactly when a real (non-sentinel) key happens
to iterate first, in which case every record's prefix is sliced to that
common length. -/
theorem se_demux_bc_len_real_first (det : Format) (fmt : Format)
    (lvl : Nat) (k0 : List Nat) (rest : List (List Nat)) (L : Nat)
    (m : Int) (nb0 : Stats) (recs : List FaRecord) (res : LoopResult)
    (h0 : k0 ≠ sentinel)
    (hcommon : ∀ k ∈ k0 :: rest, k ≠ sentinel → k.length = L)
    (hsent : sentinel ∈ k0 :: rest)
    (hlen : ∀ r ∈ recs, L ≤ r.seq.length)
    (h : se_fa_demux ⟨det, recs.map Except.ok⟩ fmt lvl (k0 :: rest) m nb0 =
      some res) :
    res.writes.map (fun w => w.key) =
      recs.map (fun r => routeKey (k0 :: rest) L m r.seq) := by
  have hk0 : k0.length = L := hcommon k0 (List.mem_cons_self _ _) h0
  rw [se_fa_demux_ok_spec det fmt lvl k0 rest m nb0 recs hsent
    (by rw [hk0]; exact hlen)] at h
  cases h
  simp [List.map_map, hk0]

/-- Witness for amended C6: real key [65, 65, 65] first, common length 3. -/
theorem se_demux_bc_len_real_first_witness :
    ([65, 65, 65] : List Nat) ≠ sentinel ∧
      (∀ k ∈ [[65, 65, 65], sentinel], k ≠ sentinel → k.length = 3) ∧
      sentinel ∈ [[65, 65, 65], sentinel] ∧
      (∀ r ∈ [aRec1], 3 ≤ r.seq.length) ∧
      se_fa_demux ⟨Format.No, [aRec1].map Except.ok⟩ Format.No 1
          [[65, 65, 65], sentinel] 0 [] =
        some ⟨[([65, 65, 65], 1)], true,
          [⟨[65, 65, 65], 0, aRec1, Format.No, 1⟩]⟩ ∧
      ([⟨[65, 65, 65], 0, aRec1, Format.No, 1⟩] : List WriteEvent).map
          (fun w => w.key) =
        [aRec1].map (fun r => routeKey [[65, 65, 65], sentinel] 3 0 r.seq) :=
  ⟨by decide, by decide, by decide, by decide, by decide,
    se_demux_bc_len_real_first Format.No Format.No 1 [65, 65, 65]
      [sentinel] 3 0 [] [aRec1]
      ⟨[([65, 65, 65], 1)], true, [⟨[65, 65, 65], 0, aRec1, Format.No, 1⟩]⟩
      (by decide) (by decide) (by decide) (by decide) (by decide)⟩

/-- The record-consuming loop stops at the first parse failure and
returns the state accumulated so far as a success: a stream with a
malformed record behaves exactly like the stream truncated before it. -/
lemma demuxLoop_stops_at_error (keys : List (List Nat)) (bcLen : Nat)
    (comp : Format) (lvl : Nat) (m : Int) (side : Nat) (msg : String)
    (tail : List (Except String FaRecord)) :
    ∀ (recs : List FaRecord) (stats : Stats) (unk : Bool),
      demuxLoop keys bcLen comp lvl m side
          (recs.map Except.ok ++ Except.error msg :: tail) stats unk =
        demuxLoop keys bcLen comp lvl m side (recs.map Except.ok) stats unk := by
  intro recs
  induction recs with
  | nil => intro stats unk; simp [demuxLoop]
  | cons r rs ih =>
    intro stats unk
    simp only [List.map_cons, List.cons_append, demuxLoop]
    by_cases hr : bcLen ≤ r.seq.length
    · rw [if_pos hr, if_pos hr]
      cases hk : matchedKey? keys bcLen m r.seq with
      | some k =>
        dsimp only
        simp only [List.append_eq]
        rw [ih]
      | none =>
        dsimp only
        simp only [List.append_eq]
        by_cases hs : sentinel ∈ keys
        · rw [if_pos hs, if_pos hs, ih]
        · rw [if_neg hs, if_neg hs]
    · rw [if_neg hr, if_neg hr]

/-- C3 counterexample: on the stream [Ok "AAAC", parse error, Ok "AAAG"]
the call does NOT abort with a fatal read error: it returns success
(`some …`) carrying only the first record's count and write; the
malformed record and everything after it (including the perfectly
parseable "AAAG") are silently discarded. -/
theorem se_demux_parse_error_counterexample :
    se_fa_demux ⟨Format.No,
        [Except.ok aRec1, Except.error "bad record", Except.ok aRec2]⟩
      Format.No 1 [[65, 65, 65], sentinel] 0 [] =
      some ⟨[([65, 65, 65], 1)], true,
        [⟨[65, 65, 65], 0, aRec1, Format.No, 1⟩]⟩ := by
  decide

/-- C3 as amended: a record that fails to parse mid-stream does not abort
the call; the `while let Some(Ok(record))` loop simply stops consuming at
that point and the call returns success with the statistics, flag and
writes accumulated before the failure, silently dropping every later
record. -/
theorem se_demux_parse_error_truncates (det : Format) (fmt : Format)
    (lvl : Nat) (keys : List (List Nat)) (m : Int) (nb0 : Stats)
    (recs : List FaRecord) (msg : String)
    (tail : List (Except String FaRecord)) :
    se_fa_demux ⟨det, recs.map Except.ok ++ Except.error msg :: tail⟩
        fmt lvl keys m nb0 =
      se_fa_demux ⟨det, recs.map Except.ok⟩ fmt lvl keys m nb0 := by
  cases keys with
  | nil => rfl
  | cons k0 rest =>
    simp only [se_fa_demux]
    rw [demuxLoop_stops_at_error]

/-- Full characterisation of `pe_fa_demux` on well-formed streams: one
forward pass (side 0) then one reverse pass (side 1), both writing with
the compression derived from the FORWARD input (or the override), the
count map threaded through both passes. -/
lemma pe_fa_demux_ok_spec (fdet : Format) (rdet : Format) (fmt : Format)
    (lvl : Nat) (k0 : List Nat) (rest : List (List Nat)) (m : Int)
    (nb0 : Stats) (frecs : List FaRecord) (rrecs : List FaRecord)
    (hsent : sentinel ∈ k0 :: rest)
    (hlenf : ∀ r ∈ frecs, k0.length ≤ r.seq.length)
    (hlenr : ∀ r ∈ rrecs, k0.length ≤ r.seq.length) :
    pe_fa_demux ⟨fdet, frecs.map Except.ok⟩ ⟨rdet, rrecs.map Except.ok⟩
        fmt lvl (k0 :: rest) m nb0 =
      some ⟨rrecs.foldl (matchStep (k0 :: rest) k0.length m)
              (frecs.foldl (matchStep (k0 :: rest) k0.length m) nb0),
            boolStr (frecs.all
                (fun r => (matchedKey? (k0 :: rest) k0.length m r.seq).isSome)) ++
              boolStr (rrecs.all
                (fun r => (matchedKey? (k0 :: rest) k0.length m r.seq).isSome)),
            frecs.map (fun r =>
                ⟨routeKey (k0 :: rest) k0.length m r.seq, 0, r,
                  if fmt ≠ Format.No then fmt else fdet, lvl⟩) ++
              rrecs.map (fun r =>
                ⟨routeKey (k0 :: rest) k0.length m r.seq, 1, r,
                  if fmt ≠ Format.No then fmt else fdet, lvl⟩)⟩ := by
  simp only [pe_fa_demux]
  rw [demuxLoop_ok_spec (k0 :: rest) k0.length _ lvl m 0 hsent frecs nb0
    true hlenf]
  dsimp only
  rw [demuxLoop_ok_spec (k0 :: rest) k0.length _ lvl m 1 hsent rrecs _
    true hlenr]
  simp

/-- C7 counterexample: paired-end run with no override, forward input
detected as Gzip, reverse input detected as Bzip. The reverse pass's
write carries Gzip — the forward stream's detected format — not the
reverse stream's own Bzip, which the source binds to `_compression` and
discards. -/
theorem pe_demux_reverse_compression_counterexample :
    pe_fa_demux ⟨Format.Gzip, [Except.ok fRec]⟩ ⟨Format.Bzip, [Except.ok rRec]⟩
        Format.No 1 [[65], sentinel] 0 [] =
      some ⟨[([65], 2)], "truetrue",
        [⟨[65], 0, fRec, Format.Gzip, 1⟩, ⟨[65], 1, rRec, Format.Gzip, 1⟩]⟩ := by
  decide

/-- C7 as amended: in a paired-end call with no compression override,
EVERY write of both passes — the reverse pass included — uses the forward
stream's detected compression format; the reverse stream's detected
format is read and discarded. -/
theorem pe_demux_reverse_uses_forward_format (fdet : Format) (rdet : Format)
    (lvl : Nat) (k0 : List Nat) (rest : List (List Nat)) (m : Int)
    (nb0 : Stats) (frecs : List FaRecord) (rrecs : List FaRecord)
    (res : PeResult)
    (hsent : sentinel ∈ k0 :: rest)
    (hlenf : ∀ r ∈ frecs, k0.length ≤ r.seq.length)
    (hlenr : ∀ r ∈ rrecs, k0.length ≤ r.seq.length)
    (h : pe_fa_demux ⟨fdet, frecs.map Except.ok⟩ ⟨rdet, rrecs.map Except.ok⟩
        Format.No lvl (k0 :: rest) m nb0 = some res) :
    res.writes.map (fun w => w.compression) =
      List.replicate (frecs.length + rrecs.length) fdet := by
  rw [pe_fa_demux_ok_spec fdet rdet Format.No lvl k0 rest m nb0 frecs rrecs
    hsent hlenf hlenr] at h
  cases h
  rw [List.map_append, List.map_map, List.map_map, List.replicate_add]
  congr 1
  · exact List.map_const' frecs fdet
  · exact List.map_const' rrecs fdet

/-- Witness for amended C7: forward Gzip, reverse Bzip, both writes
Gzip. -/
theorem pe_demux_reverse_uses_forward_format_witness :
    sentinel ∈ [[65], sentinel] ∧
      (∀ r ∈ [fRec], ([65] : List Nat).length ≤ r.seq.length) ∧
      (∀ r ∈ [rRec], ([65] : List Nat).length ≤ r.seq.length) ∧
      pe_fa_demux ⟨Format.Gzip, [fRec].map Except.ok⟩
          ⟨Format.Bzip, [rRec].map Except.ok⟩ Format.No 1
          [[65], sentinel] 0 [] =
        some ⟨[([65], 2)], "truetrue",
          [⟨[65], 0, fRec, Format.Gzip, 1⟩, ⟨[65], 1, rRec, Format.Gzip, 1⟩]⟩ ∧
      ([⟨[65], 0, fRec, Format.Gzip, 1⟩, ⟨[65], 1, rRec, Format.Gzip, 1⟩] :
          List WriteEvent).map (fun w => w.compression) =
        List.replicate (([fRec] : List FaRecord).length +
          ([rRec] : List FaRecord).length) Format.Gzip :=
  ⟨by decide, by decide, by decide, by decide,
    pe_demux_reverse_uses_forward_format Format.Gzip Format.Bzip 1 [65]
      [sentinel] 0 [] [fRec] [rRec]
      ⟨[([65], 2)], "truetrue",
        [⟨[65], 0, fRec, Format.Gzip, 1⟩, ⟨[65], 1, rRec, Format.Gzip, 1⟩]⟩
      (by decide) (by decide) (by decide) (by decide)⟩

/-- The mismatch sum of `bc_cmp` is bounded by the barcode's length: the
zip never pairs more positions than the barcode has. -/
lemma nbMismatch_le_length (k : List Nat) (s : List Nat) :
    ((k.zip s).map (fun p => if p.1 = p.2 then (0 : Int) else 1)).sum ≤
      (k.length : Int) := by
  induction k generalizing s with
  | nil => simp
  | cons a as ih =>
    cases s with
    | nil =>
      simp
      positivity
    | cons c cs =>
      simp only [List.zip_cons_cons, List.map_cons, List.sum_cons,
        List.length_cons]
      have h := ih cs
      by_cases hac : a = c
      · simp only [if_pos hac]
        push_cast
        linarith
      · simp only [if_neg hac]
        push_cast
        linarith

/-- With a threshold at least the barcode's length, `bc_cmp` passes
against any sequence. -/
lemma bc_cmp_of_length_le (k : List Nat) (s : List Nat) (m : Int)
    (h : (k.length : Int) ≤ m) : bc_cmp k s m = true := by
  simp only [bc_cmp, decide_eq_true_eq, ne_eq, ite_not]
  exact le_trans (nbMismatch_le_length k s) h

/-- When the threshold is at least the first key's length, the linear
scan stops at that first key on every record: the loop counts and writes
everything under the table's first-iterated key. -/
lemma demuxLoop_first_key (k0 : List Nat) (rest : List (List Nat))
    (bcLen : Nat) (comp : Format) (lvl : Nat) (m : Int) (side : Nat)
    (hm : (k0.length : Int) ≤ m) :
    ∀ (recs : List FaRecord) (stats : Stats) (unk : Bool),
      (∀ r ∈ recs, bcLen ≤ r.seq.length) →
      demuxLoop (k0 :: rest) bcLen comp lvl m side (recs.map Except.ok)
          stats unk =
        some ⟨recs.foldl (fun s _ => updateCount s k0) stats, unk,
              recs.map (fun r => ⟨k0, side, r, comp, lvl⟩)⟩ := by
  intro recs
  induction recs with
  | nil => intro stats unk _; simp [demuxLoop]
  | cons r rs ih =>
    intro stats unk hlen
    have hr : bcLen ≤ r.seq.length := hlen r (List.mem_cons_self _ _)
    have hrs : ∀ x ∈ rs, bcLen ≤ x.seq.length :=
      fun x hx => hlen x (List.mem_cons_of_mem _ hx)
    have hfind : matchedKey? (k0 :: rest) bcLen m r.seq = some k0 := by
      unfold matchedKey?
      exact List.find?_cons_of_pos _ (bc_cmp_of_length_le _ _ _ hm)
    simp only [List.map_cons, demuxLoop, if_pos hr, hfind]
    rw [ih (updateCount stats k0) unk hrs]
    rfl

/-- C9: selection is first-match, not best-match: the selected barcode is
the first key in the table's iteration order whose comparison passes the
threshold. In particular, when `max_mismatch` is at least the barcode
length every comparison passes, so every record is counted and written
under the first key the table iterates — regardless of which key is
closest to the read. -/
theorem se_demux_first_key_wins (det : Format) (fmt : Format) (lvl : Nat)
    (k0 : List Nat) (rest : List (List Nat)) (m : Int) (nb0 : Stats)
    (recs : List FaRecord)
    (hm : (k0.length : Int) ≤ m)
    (hlen : ∀ r ∈ recs, k0.length ≤ r.seq.length) :
    se_fa_demux ⟨det, recs.map Except.ok⟩ fmt lvl (k0 :: rest) m nb0 =
      some ⟨recs.foldl (fun s _ => updateCount s k0) nb0, true,
            recs.map (fun r =>
              ⟨k0, 0, r, if fmt ≠ Format.No then fmt else det, lvl⟩)⟩ := by
  simp only [se_fa_demux]
  rw [demuxLoop_first_key k0 rest k0.length _ lvl m 0 hm recs nb0 true hlen]

/-- Witness for C9: a "CCCC" read, 3 mismatches allowed, table iterating
[65, 65, 65] (distance 3) before [71, 71, 71] (also distance 3): the read
is assigned to the first key. -/
theorem se_demux_first_key_wins_witness :
    (((([65, 65, 65] : List Nat)).length : Int) ≤ 3) ∧
      (∀ r ∈ [cccRec], ([65, 65, 65] : List Nat).length ≤ r.seq.length) ∧
      se_fa_demux ⟨Format.No, [cccRec].map Except.ok⟩ Format.No 1
          ([65, 65, 65] :: [[71, 71, 71]]) 3 [] =
        some ⟨[cccRec].foldl (fun s _ => updateCount s [65, 65, 65]) [], true,
              [cccRec].map (fun r =>
                ⟨[65, 65, 65], 0, r,
                  if (Format.No : Format) ≠ Format.No then Format.No
                  else Format.No, 1⟩)⟩ :=
  ⟨by decide, by decide,
    se_demux_first_key_wins Format.No Format.No 1 [65, 65, 65]
      [[71, 71, 71]] 3 [] [cccRec] (by decide) (by decide)⟩

end Sabreur
